import Mathlib

/-!
Verification development for the `terrain-mesh` repository
(crates `delaunay-mesh` and `scape`).

Shallow embedding conventions:
- `f64` coordinates are modelled exactly over `ℚ`.
- A `Circle` carries the squared radius `r2` instead of `radius`:
  the source stores `radius` and tests `dist(center, p) <= radius`;
  over exact arithmetic with a non-negative radius this is equivalent
  to `dist2(center, p) <= radius^2`, which keeps everything computable.
- Rust panics (`unwrap` in `Index for Arena`) are modelled with `Except`.
- The unbounded recursion of `BvhNode::insert` (a leaf split can cascade)
  is modelled with explicit fuel; exhausting the fuel returns the node
  unchanged, and every statement below either holds for all fuel values or
  is evaluated at a fuel large enough that exhaustion is never reached.
-/

namespace TerrainMesh

/-- 2D vector with rational coordinates; embeds `Vec2` of
`src/delaunay-mesh/src/geo.rs`. -/
structure Vec2 where
  x : ℚ
  y : ℚ
deriving DecidableEq, Repr

/-- `Vec2::zero`. -/
def Vec2.zero : Vec2 := ⟨0, 0⟩

/-- `Add for Vec2` (component-wise). -/
def Vec2.add (a b : Vec2) : Vec2 := ⟨a.x + b.x, a.y + b.y⟩

/-- `Sub for Vec2` (component-wise). -/
def Vec2.sub (a b : Vec2) : Vec2 := ⟨a.x - b.x, a.y - b.y⟩

/-- `Add<f64> for Vec2` (adds the scalar to both components). -/
def Vec2.addScalar (a : Vec2) (k : ℚ) : Vec2 := ⟨a.x + k, a.y + k⟩

/-- `Sub<f64> for Vec2` (subtracts the scalar from both components). -/
def Vec2.subScalar (a : Vec2) (k : ℚ) : Vec2 := ⟨a.x - k, a.y - k⟩

/-- `Div<f64> for Vec2` (divides both components by the scalar). -/
def Vec2.divScalar (a : Vec2) (k : ℚ) : Vec2 := ⟨a.x / k, a.y / k⟩

/-- `Vec2::norm2`: squared Euclidean norm. -/
def Vec2.norm2 (v : Vec2) : ℚ := v.x ^ 2 + v.y ^ 2

/-- `Vec2::dist2`: squared distance, `(*self - p).norm2()`. -/
def Vec2.dist2 (a b : Vec2) : ℚ := (a.sub b).norm2

/-- Axis-aligned bounding box, `Bbox` of `geo.rs`. -/
structure Bbox where
  min : Vec2
  max : Vec2
deriving DecidableEq, Repr

/-- `Bbox::center`: `(min + max) / 2`. -/
def Bbox.center (b : Bbox) : Vec2 := (b.min.add b.max).divScalar 2

/-- `Bbox::expand`: grow `min`/`max` component-wise to include `p`. -/
def Bbox.expand (b : Bbox) (p : Vec2) : Bbox :=
  ⟨⟨Min.min b.min.x p.x, Min.min b.min.y p.y⟩, ⟨Max.max b.max.x p.x, Max.max b.max.y p.y⟩⟩

/-- `Bbox::contains`: closed-interval test on both axes. -/
def Bbox.contains (b : Bbox) (p : Vec2) : Bool :=
  decide (b.min.x ≤ p.x) && decide (b.min.y ≤ p.y) &&
  decide (b.max.x ≥ p.x) && decide (b.max.y ≥ p.y)

/-- `Bbox::split`: the 4 sub-boxes around the pivot `p`, in source order. -/
def Bbox.split (b : Bbox) (p : Vec2) : Bbox × Bbox × Bbox × Bbox :=
  (⟨b.min, p⟩,
   ⟨⟨p.x, b.min.y⟩, ⟨b.max.x, p.y⟩⟩,
   ⟨⟨b.min.x, p.y⟩, ⟨p.x, b.max.y⟩⟩,
   ⟨p, b.max⟩)

/-- Circle with center and *squared* radius (see the header comment);
embeds `Circle` of `geo.rs`. -/
structure Circle where
  center : Vec2
  r2 : ℚ
deriving DecidableEq, Repr

/-- `Circle::contains`: inclusive containment, `dist(center, p) <= radius`,
expressed on squares. -/
def Circle.contains (c : Circle) (p : Vec2) : Bool :=
  decide (c.center.dist2 p ≤ c.r2)

/-- Modelled from the spec: the body of `Circle::circumcircle` in
`src/delaunay-mesh/src/geo.rs` is `unimplemented!()` (an explicit stub);
the spec states it "returns the unique circle through 3 non-collinear
points". This is the standard circumcenter formula obtained by solving the
two perpendicular-bisector equations; for collinear inputs the divisor `d`
is `0` and the `ℚ` convention `x / 0 = 0` applies (the theorems below only
concern non-collinear inputs). -/
def Circle.circumcircle (a b c : Vec2) : Circle :=
  let d := 2 * (a.x * (b.y - c.y) + b.x * (c.y - a.y) + c.x * (a.y - b.y))
  let ux := (a.norm2 * (b.y - c.y) + b.norm2 * (c.y - a.y) + c.norm2 * (a.y - b.y)) / d
  let uy := (a.norm2 * (c.x - b.x) + b.norm2 * (a.x - c.x) + c.norm2 * (b.x - a.x)) / d
  let center : Vec2 := ⟨ux, uy⟩
  { center := center, r2 := center.dist2 a }

/-- Three points are collinear iff the cross product of `b - a` and `c - a`
vanishes. -/
def Collinear3 (a b c : Vec2) : Prop :=
  (b.x - a.x) * (c.y - a.y) - (b.y - a.y) * (c.x - a.x) = 0

instance (a b c : Vec2) : Decidable (Collinear3 a b c) := by
  unfold Collinear3; infer_instance

/-- The divisor of the circumcenter formula is nonzero for non-collinear points. -/
lemma circumcircle_div_ne_zero {a b c : Vec2} (h : ¬ Collinear3 a b c) :
    2 * (a.x * (b.y - c.y) + b.x * (c.y - a.y) + c.x * (a.y - b.y)) ≠ 0 := by
  intro hd
  apply h
  unfold Collinear3
  linear_combination hd / 2

/-- The circumcenter is equidistant (in squared distance) from `a` and `b`. -/
lemma circumcircle_dist2_b {a b c : Vec2} (h : ¬ Collinear3 a b c) :
    (Circle.circumcircle a b c).center.dist2 b = (Circle.circumcircle a b c).r2 := by
  have hd := circumcircle_div_ne_zero h
  simp only [Circle.circumcircle, Circle.contains, Vec2.dist2, Vec2.sub, Vec2.norm2]
  field_simp
  ring

/-- The circumcenter is equidistant (in squared distance) from `a` and `c`. -/
lemma circumcircle_dist2_c {a b c : Vec2} (h : ¬ Collinear3 a b c) :
    (Circle.circumcircle a b c).center.dist2 c = (Circle.circumcircle a b c).r2 := by
  have hd := circumcircle_div_ne_zero h
  simp only [Circle.circumcircle, Circle.contains, Vec2.dist2, Vec2.sub, Vec2.norm2]
  field_simp
  ring

/-- Any point equidistant (in squared distance) from `a`, `b`, `c` is the
circumcenter, and the common squared distance is the circle's `r2`. -/
lemma circumcircle_center_unique {a b c : Vec2} (h : ¬ Collinear3 a b c)
    (o : Vec2) (r : ℚ) (ha : o.dist2 a = r) (hb : o.dist2 b = r) (hc : o.dist2 c = r) :
    o = (Circle.circumcircle a b c).center ∧ r = (Circle.circumcircle a b c).r2 := by
  have hd := circumcircle_div_ne_zero h
  simp only [Vec2.dist2, Vec2.sub, Vec2.norm2] at ha hb hc
  have hab : (o.x - a.x) ^ 2 + (o.y - a.y) ^ 2 = (o.x - b.x) ^ 2 + (o.y - b.y) ^ 2 := by
    rw [ha, hb]
  have hac : (o.x - a.x) ^ 2 + (o.y - a.y) ^ 2 = (o.x - c.x) ^ 2 + (o.y - c.y) ^ 2 := by
    rw [ha, hc]
  have hx : o.x = (Circle.circumcircle a b c).center.x := by
    simp only [Circle.circumcircle, Vec2.norm2]
    field_simp
    linear_combination (c.y - a.y) * hab - (b.y - a.y) * hac
  have hy : o.y = (Circle.circumcircle a b c).center.y := by
    simp only [Circle.circumcircle, Vec2.norm2]
    field_simp
    linear_combination (a.x - c.x) * hab - (a.x - b.x) * hac
  have ho : o = (Circle.circumcircle a b c).center := by
    cases o; cases hx; cases hy; rfl
  refine ⟨ho, ?_⟩
  have : (Circle.circumcircle a b c).r2 = (Circle.circumcircle a b c).center.dist2 a := rfl
  rw [this, ← ho, Vec2.dist2, Vec2.sub, Vec2.norm2, ← ha]

/-- C1: for every 3 non-collinear points `a`, `b`, `c`,
`Circle::circumcircle(a, b, c)` returns the unique circle through them:
its center is equidistant (in exact squared distance) from `a`, `b` and `c`,
its (squared) radius equals that (squared) distance, `contains` holds with
equality on the boundary for each of `a`, `b`, `c`, no point strictly
outside the circle is reported contained, and any center/radius equidistant
from the three points coincides with the computed one.
(`Circle::circumcircle` is an `unimplemented!()` stub in the source; the
definition is modelled from the spec, see its doc comment.) -/
theorem C1_circumcircle_unique_through_noncollinear (a b c : Vec2)
    (h : ¬ Collinear3 a b c) :
    ((Circle.circumcircle a b c).center.dist2 a = (Circle.circumcircle a b c).r2 ∧
     (Circle.circumcircle a b c).center.dist2 b = (Circle.circumcircle a b c).r2 ∧
     (Circle.circumcircle a b c).center.dist2 c = (Circle.circumcircle a b c).r2) ∧
    ((Circle.circumcircle a b c).contains a = true ∧
     (Circle.circumcircle a b c).contains b = true ∧
     (Circle.circumcircle a b c).contains c = true) ∧
    (∀ p : Vec2, (Circle.circumcircle a b c).r2 < (Circle.circumcircle a b c).center.dist2 p →
      (Circle.circumcircle a b c).contains p = false) ∧
    (∀ (o : Vec2) (r : ℚ), o.dist2 a = r → o.dist2 b = r → o.dist2 c = r →
      o = (Circle.circumcircle a b c).center ∧ r = (Circle.circumcircle a b c).r2) := by
  have ha : (Circle.circumcircle a b c).center.dist2 a = (Circle.circumcircle a b c).r2 := rfl
  have hb := circumcircle_dist2_b h
  have hc := circumcircle_dist2_c h
  refine ⟨⟨ha, hb, hc⟩, ⟨?_, ?_, ?_⟩, ?_, circumcircle_center_unique h⟩
  · simp [Circle.contains, ha]
  · simp [Circle.contains, hb]
  · simp [Circle.contains, hc]
  · intro p hp
    simp [Circle.contains]
    linarith

unseal Rat.add Rat.sub Rat.mul Rat.inv in
/-- Witness for C1 at the concrete non-collinear triple
`(0,0)`, `(4,0)`, `(0,4)`: the circumcircle has center `(2,2)` and squared
radius `8`, and all three points lie exactly on it. -/
theorem C1_circumcircle_unique_through_noncollinear_witness :
    ¬ Collinear3 ⟨0, 0⟩ ⟨4, 0⟩ ⟨0, 4⟩ ∧
    (Circle.circumcircle ⟨0, 0⟩ ⟨4, 0⟩ ⟨0, 4⟩).center.dist2 ⟨4, 0⟩ =
      (Circle.circumcircle ⟨0, 0⟩ ⟨4, 0⟩ ⟨0, 4⟩).r2 := by
  have h : ¬ Collinear3 (⟨0, 0⟩ : Vec2) ⟨4, 0⟩ ⟨0, 4⟩ := by decide
  exact ⟨h, (C1_circumcircle_unique_through_noncollinear ⟨0, 0⟩ ⟨4, 0⟩ ⟨0, 4⟩ h).1.2.1⟩

/-- Spatial index node, `BvhNode` of `src/delaunay-mesh/src/bvh.rs`:
a leaf holds (element, reference point) pairs and a box; a branch holds a
box and exactly 4 children. `Bvh::new` makes a leaf with no elements, so a
`Bvh` is modelled by its root node. -/
inductive BvhNode (E : Type) where
  | leaf (elems : List (E × Vec2)) (bbox : Bbox)
  | branch (bbox : Bbox) (c0 c1 c2 c3 : BvhNode E)

variable {E : Type}

def BvhNode.nodeBbox : BvhNode E → Bbox
  | .leaf _ b => b
  | .branch b _ _ _ _ => b

def BvhNode.contains (n : BvhNode E) (p : Vec2) : Bool := n.nodeBbox.contains p

/-- One step of `BvhNode::insert`'s redistribution/descent: insert into the
first of the 4 children whose box contains the reference point (first match
wins); if none contains it, the element is dropped. `ins` is the recursive
insertion function (one fuel level down). -/
def BvhNode.insertFirst (ins : BvhNode E → E → Vec2 → BvhNode E)
    (c0 c1 c2 c3 : BvhNode E) (e : E) (rp : Vec2) :
    BvhNode E × BvhNode E × BvhNode E × BvhNode E :=
  if c0.contains rp then (ins c0 e rp, c1, c2, c3)
  else if c1.contains rp then (c0, ins c1 e rp, c2, c3)
  else if c2.contains rp then (c0, c1, ins c2 e rp, c3)
  else if c3.contains rp then (c0, c1, c2, ins c3 e rp)
  else (c0, c1, c2, c3)

/-- The body of `BvhNode::insert` with the recursive call abstracted. -/
def BvhNode.insertBody (ins : BvhNode E → E → Vec2 → BvhNode E) :
    BvhNode E → E → Vec2 → BvhNode E
  | .leaf elems bbox, e, rp =>
      let elems := elems ++ [(e, rp)]
      let bbox := bbox.expand rp
      if 64 < elems.length then
        let pivot := bbox.center
        let q := bbox.split pivot
        let cs := elems.foldl
          (fun cs er => BvhNode.insertFirst ins cs.1 cs.2.1 cs.2.2.1 cs.2.2.2 er.1 er.2)
          (.leaf [] q.1, .leaf [] q.2.1, .leaf [] q.2.2.1, .leaf [] q.2.2.2)
        .branch bbox cs.1 cs.2.1 cs.2.2.1 cs.2.2.2
      else
        .leaf elems bbox
  | .branch bbox c0 c1 c2 c3, e, rp =>
      let cs := BvhNode.insertFirst ins c0 c1 c2 c3 e rp
      .branch bbox cs.1 cs.2.1 cs.2.2.1 cs.2.2.2

/-- `BvhNode::insert`, with explicit fuel bounding the split cascade. -/
def BvhNode.insertFuel : ℕ → BvhNode E → E → Vec2 → BvhNode E
  | 0 => fun n _ _ => n
  | fuel + 1 => BvhNode.insertBody (BvhNode.insertFuel fuel)

def BvhNode.enclosing (n : BvhNode E) (p : Vec2) (pred : E → Vec2 → Bool) : List E :=
  match n with
  | .leaf elems _ => (elems.filter fun er => pred er.1 p).map Prod.fst
  | .branch bbox c0 c1 c2 c3 =>
      if bbox.contains p then
        c3.enclosing p pred ++ c2.enclosing p pred ++ c1.enclosing p pred ++ c0.enclosing p pred
      else []

def BvhNode.elemsOf : BvhNode E → List (E × Vec2)
  | .leaf elems _ => elems
  | .branch _ c0 c1 c2 c3 => c0.elemsOf ++ c1.elemsOf ++ c2.elemsOf ++ c3.elemsOf

lemma insertFuel_leaf_small {es : List (E × Vec2)} {b : Bbox} {e : E} {rp : Vec2}
    (fuel : ℕ) (h : es.length < 64) :
    BvhNode.insertFuel (fuel + 1) (.leaf es b) e rp = .leaf (es ++ [(e, rp)]) (b.expand rp) := by
  simp only [BvhNode.insertFuel, BvhNode.insertBody, List.length_append, List.length_cons,
    List.length_nil]
  rw [if_neg]
  omega

lemma expand_of_contains {b : Bbox} {p : Vec2} (h : b.contains p = true) : b.expand p = b := by
  simp only [Bbox.contains, Bool.and_eq_true, decide_eq_true_eq, ge_iff_le] at h
  obtain ⟨⟨⟨h1, h2⟩, h3⟩, h4⟩ := h
  simp only [Bbox.expand, min_eq_left h1, min_eq_left h2, max_eq_left h3, max_eq_left h4]

lemma foldl_insert_leaf (fuel : ℕ) (ps : List (E × Vec2)) :
    ∀ (es : List (E × Vec2)) (b : Bbox), es.length + ps.length ≤ 64 →
      (∀ er ∈ ps, b.contains er.2 = true) →
      ps.foldl (fun n er => BvhNode.insertFuel (fuel + 1) n er.1 er.2) (.leaf es b) =
        .leaf (es ++ ps) b := by
  induction ps with
  | nil => intro es b _ _; simp
  | cons er ps ih =>
      intro es b hlen hin
      have hc : b.contains er.2 = true := hin er (List.mem_cons_self er ps)
      have hlt : es.length < 64 := by simp at hlen; omega
      have hstep : BvhNode.insertFuel (fuel + 1) (.leaf es b) er.1 er.2 =
          .leaf (es ++ [er]) b := by
        rw [insertFuel_leaf_small fuel hlt, expand_of_contains hc]
      simp only [List.foldl_cons, hstep]
      rw [ih (es ++ [er]) b (by simp at hlen ⊢; omega)
        (fun x hx => hin x (List.mem_cons_of_mem er hx))]
      simp

lemma insertFirst_c0 {ins : BvhNode E → E → Vec2 → BvhNode E} {c0 c1 c2 c3 : BvhNode E}
    {e : E} {rp : Vec2} (h : c0.contains rp = true) :
    BvhNode.insertFirst ins c0 c1 c2 c3 e rp = (ins c0 e rp, c1, c2, c3) := by
  simp [BvhNode.insertFirst, h]

lemma insertFirst_c1 {ins : BvhNode E → E → Vec2 → BvhNode E} {c0 c1 c2 c3 : BvhNode E}
    {e : E} {rp : Vec2} (h0 : c0.contains rp = false) (h1 : c1.contains rp = true) :
    BvhNode.insertFirst ins c0 c1 c2 c3 e rp = (c0, ins c1 e rp, c2, c3) := by
  simp [BvhNode.insertFirst, h0, h1]

lemma foldl_insertFirst_c0 (fuel : ℕ) (ps : List (E × Vec2)) :
    ∀ (es0 : List (E × Vec2)) (b0 : Bbox) (c1 c2 c3 : BvhNode E),
      es0.length + ps.length ≤ 64 →
      (∀ er ∈ ps, b0.contains er.2 = true) →
      ps.foldl
        (fun cs er => BvhNode.insertFirst (BvhNode.insertFuel (fuel + 1))
          cs.1 cs.2.1 cs.2.2.1 cs.2.2.2 er.1 er.2)
        (.leaf es0 b0, c1, c2, c3) = (.leaf (es0 ++ ps) b0, c1, c2, c3) := by
  induction ps with
  | nil => intro es0 b0 c1 c2 c3 _ _; simp
  | cons er ps ih =>
      intro es0 b0 c1 c2 c3 hlen hin
      have hc : b0.contains er.2 = true := hin er (List.mem_cons_self er ps)
      have hc0 : (BvhNode.leaf es0 b0 : BvhNode E).contains er.2 = true := hc
      have hlt : es0.length < 64 := by simp at hlen; omega
      have hstep : BvhNode.insertFirst (BvhNode.insertFuel (fuel + 1))
          (.leaf es0 b0) c1 c2 c3 er.1 er.2 =
          ((.leaf (es0 ++ [er]) b0 : BvhNode E), c1, c2, c3) := by
        rw [insertFirst_c0 hc0, insertFuel_leaf_small fuel hlt, expand_of_contains hc]
      simp only [List.foldl_cons, hstep]
      rw [ih (es0 ++ [er]) b0 c1 c2 c3 (by simp at hlen ⊢; omega)
        (fun x hx => hin x (List.mem_cons_of_mem er hx))]
      simp


lemma foldl_insertFirst_c1 (fuel : ℕ) (ps : List (E × Vec2)) :
    ∀ (c0 : BvhNode E) (es1 : List (E × Vec2)) (b1 : Bbox) (c2 c3 : BvhNode E),
      es1.length + ps.length ≤ 64 →
      (∀ er ∈ ps, c0.contains er.2 = false ∧ b1.contains er.2 = true) →
      ps.foldl
        (fun cs er => BvhNode.insertFirst (BvhNode.insertFuel (fuel + 1))
          cs.1 cs.2.1 cs.2.2.1 cs.2.2.2 er.1 er.2)
        (c0, .leaf es1 b1, c2, c3) = (c0, .leaf (es1 ++ ps) b1, c2, c3) := by
  induction ps with
  | nil => intro c0 es1 b1 c2 c3 _ _; simp
  | cons er ps ih =>
      intro c0 es1 b1 c2 c3 hlen hin
      have hc := hin er (List.mem_cons_self er ps)
      have hc1 : (BvhNode.leaf es1 b1 : BvhNode E).contains er.2 = true := hc.2
      have hlt : es1.length < 64 := by simp at hlen; omega
      have hstep : BvhNode.insertFirst (BvhNode.insertFuel (fuel + 1))
          c0 (.leaf es1 b1) c2 c3 er.1 er.2 =
          (c0, (.leaf (es1 ++ [er]) b1 : BvhNode E), c2, c3) := by
        rw [insertFirst_c1 hc.1 hc1, insertFuel_leaf_small fuel hlt, expand_of_contains hc.2]
      simp only [List.foldl_cons, hstep]
      rw [ih c0 (es1 ++ [er]) b1 c2 c3 (by simp at hlen ⊢; omega)
        (fun x hx => hin x (List.mem_cons_of_mem er hx))]
      simp

def cexBox : Bbox := ⟨⟨0, 0⟩, ⟨64, 64⟩⟩
def cexPairsA : List (ℕ × Vec2) := (List.range 33).map (fun i => (i, ⟨(i : ℚ), 0⟩))
def cexPairsB : List (ℕ × Vec2) :=
  ((List.range 32).map (fun i => i + 33)).map (fun i => (i, ⟨(i : ℚ), 0⟩))
def cexPairs : List (ℕ × Vec2) := cexPairsA ++ cexPairsB
def cexPairs64 : List (ℕ × Vec2) := cexPairsA ++ cexPairsB.dropLast
def cexTree : BvhNode ℕ :=
  cexPairs.foldl (fun n er => BvhNode.insertFuel 10 n er.1 er.2) (.leaf [] cexBox)

unseal Rat.add Rat.mul Rat.inv in
lemma cexBox_center : cexBox.center = ⟨32, 32⟩ := by decide

set_option maxRecDepth 3000 in
lemma cexPairs_snoc : cexPairs = cexPairs64 ++ [(64, ⟨(64 : ℚ), 0⟩)] := by decide

set_option maxRecDepth 3000 in
theorem cexTree_eq :
    cexTree = .branch cexBox
      (.leaf cexPairsA ⟨⟨0, 0⟩, ⟨32, 32⟩⟩)
      (.leaf cexPairsB ⟨⟨32, 0⟩, ⟨64, 32⟩⟩)
      (.leaf [] ⟨⟨0, 32⟩, ⟨32, 64⟩⟩)
      (.leaf [] ⟨⟨32, 32⟩, ⟨64, 64⟩⟩) := by
  have hin64 : ∀ er ∈ cexPairs64, cexBox.contains er.2 = true := by decide
  have hlen64 : cexPairs64.length = 64 := by decide
  have hphase1 : cexPairs64.foldl
      (fun n er => BvhNode.insertFuel 10 n er.1 er.2) (.leaf [] cexBox) =
      .leaf cexPairs64 cexBox := by
    have h := foldl_insert_leaf (E := ℕ) 9 cexPairs64 [] cexBox (by simp [hlen64]) hin64
    simpa using h
  have h1 : cexTree = BvhNode.insertFuel 10 (.leaf cexPairs64 cexBox) 64 ⟨(64 : ℚ), 0⟩ := by
    rw [cexTree, cexPairs_snoc, List.foldl_append, hphase1]
    simp only [List.foldl_cons, List.foldl_nil]
  rw [h1]
  show BvhNode.insertBody (BvhNode.insertFuel 9) (.leaf cexPairs64 cexBox) 64 ⟨(64 : ℚ), 0⟩ = _
  rw [BvhNode.insertBody]
  have hexp : cexBox.expand ⟨(64 : ℚ), 0⟩ = cexBox := expand_of_contains (by decide)
  rw [hexp]
  have hlen65 : 64 < (cexPairs64 ++ [((64 : ℕ), (⟨(64 : ℚ), 0⟩ : Vec2))]).length := by
    simp [hlen64]
  rw [if_pos hlen65]
  rw [cexBox_center]
  show (let q := cexBox.split ⟨32, 32⟩
    let cs := (cexPairs64 ++ [((64 : ℕ), (⟨(64 : ℚ), 0⟩ : Vec2))]).foldl
      (fun cs er => BvhNode.insertFirst (BvhNode.insertFuel 9) cs.1 cs.2.1 cs.2.2.1 cs.2.2.2 er.1 er.2)
      (.leaf [] q.1, .leaf [] q.2.1, .leaf [] q.2.2.1, .leaf [] q.2.2.2)
    BvhNode.branch cexBox cs.1 cs.2.1 cs.2.2.1 cs.2.2.2) = _
  rw [show cexPairs64 ++ [((64 : ℕ), (⟨(64 : ℚ), 0⟩ : Vec2))] = cexPairsA ++ cexPairsB from
    cexPairs_snoc ▸ rfl]
  rw [show cexBox.split ⟨32, 32⟩ =
    (⟨⟨0, 0⟩, ⟨32, 32⟩⟩, ⟨⟨32, 0⟩, ⟨64, 32⟩⟩, ⟨⟨0, 32⟩, ⟨32, 64⟩⟩,
     (⟨⟨32, 32⟩, ⟨64, 64⟩⟩ : Bbox)) from rfl]
  dsimp only
  rw [List.foldl_append]
  rw [foldl_insertFirst_c0 (E := ℕ) 8 cexPairsA [] ⟨⟨0, 0⟩, ⟨32, 32⟩⟩ _ _ _
    (by decide) (by decide)]
  rw [foldl_insertFirst_c1 (E := ℕ) 8 cexPairsB _ [] ⟨⟨32, 0⟩, ⟨64, 32⟩⟩ _ _
    (by decide) (by decide)]
  simp

/-- `BvhNode::enclosing` is sound: every yielded element is stored in the
tree and passes the predicate at the query point. -/
lemma enclosing_sound (n : BvhNode E) (p : Vec2) (pred : E → Vec2 → Bool) :
    ∀ e ∈ n.enclosing p pred, (∃ rp, (e, rp) ∈ n.elemsOf) ∧ pred e p = true := by
  induction n with
  | leaf elems bbox =>
      intro e he
      simp only [BvhNode.enclosing, List.mem_map, List.mem_filter] at he
      obtain ⟨⟨e1, rp⟩, ⟨hmem, hpred⟩, rfl⟩ := he
      exact ⟨⟨rp, by simpa [BvhNode.elemsOf] using hmem⟩, hpred⟩
  | branch bbox c0 c1 c2 c3 ih0 ih1 ih2 ih3 =>
      intro e he
      simp only [BvhNode.enclosing] at he
      by_cases hc : bbox.contains p = true
      · rw [if_pos hc] at he
        simp only [List.mem_append] at he
        rcases he with ((h | h) | h) | h
        · obtain ⟨⟨rp, hin⟩, hp⟩ := ih3 e h
          exact ⟨⟨rp, by simp [BvhNode.elemsOf, hin]⟩, hp⟩
        · obtain ⟨⟨rp, hin⟩, hp⟩ := ih2 e h
          exact ⟨⟨rp, by simp [BvhNode.elemsOf, hin]⟩, hp⟩
        · obtain ⟨⟨rp, hin⟩, hp⟩ := ih1 e h
          exact ⟨⟨rp, by simp [BvhNode.elemsOf, hin]⟩, hp⟩
        · obtain ⟨⟨rp, hin⟩, hp⟩ := ih0 e h
          exact ⟨⟨rp, by simp [BvhNode.elemsOf, hin]⟩, hp⟩
      · rw [if_neg hc] at he
        exact absurd he (List.not_mem_nil e)

/-- Folding at most 64 insertions into an empty-rooted leaf keeps the root a
leaf and stores exactly the inserted pairs, in order (the bounding box is
whatever the successive expansions produce). -/
lemma foldl_insert_leaf_ex (fuel : ℕ) (ps : List (E × Vec2)) :
    ∀ (es : List (E × Vec2)) (b : Bbox), es.length + ps.length ≤ 64 →
      ∃ b2, ps.foldl (fun n er => BvhNode.insertFuel (fuel + 1) n er.1 er.2) (.leaf es b) =
        .leaf (es ++ ps) b2 := by
  induction ps with
  | nil => intro es b _; exact ⟨b, by simp⟩
  | cons er ps ih =>
      intro es b hlen
      have hlt : es.length < 64 := by simp at hlen; omega
      obtain ⟨b2, hb2⟩ := ih (es ++ [er]) (b.expand er.2) (by simp at hlen ⊢; omega)
      refine ⟨b2, ?_⟩
      simp only [List.foldl_cons, insertFuel_leaf_small fuel hlt, hb2]
      simp

/-- C5 counterexample: after inserting 65 (element, reference point) pairs
(which splits the root leaf into a branch), querying `enclosing` at a point
outside the root box with the always-true predicate yields nothing, although
65 elements are stored: `enclosing` is not a superset of the stored set. -/
theorem C5_enclosing_not_superset_counterexample :
    ¬ (∀ er ∈ cexTree.elemsOf,
        er.1 ∈ cexTree.enclosing ⟨100, 100⟩ (fun _ _ => true)) := by
  intro hall
  have hnone : cexTree.enclosing ⟨100, 100⟩ (fun _ _ => true) = [] := by
    rw [cexTree_eq]
    simp only [BvhNode.enclosing]
    rw [if_neg (by decide)]
  have h0 : ((0 : ℕ), (⟨0, 0⟩ : Vec2)) ∈ cexTree.elemsOf := by
    rw [cexTree_eq]
    simp only [BvhNode.elemsOf, List.mem_append]
    left; left; left
    decide
  have := hall _ h0
  rw [hnone] at this
  exact absurd this (List.not_mem_nil _)

/-- C5 (amended): `enclosing` yields only stored elements that pass the
predicate (it can skip stored elements whose leaf sits under a branch whose
box does not contain the query point), and while at most 64 pairs have been
inserted (the root is still a leaf) `enclosing` returns exactly the
brute-force linear scan: the stored pairs filtered by the predicate. -/
theorem C5_enclosing_sound_and_leaf_exact :
    (∀ (n : BvhNode ℕ) (p : Vec2) (pred : ℕ → Vec2 → Bool) (e : ℕ),
       e ∈ n.enclosing p pred → (∃ rp, (e, rp) ∈ n.elemsOf) ∧ pred e p = true) ∧
    (∀ (fuel : ℕ) (ps : List (ℕ × Vec2)) (b0 : Bbox), ps.length ≤ 64 →
       ∃ b, ps.foldl (fun n er => BvhNode.insertFuel (fuel + 1) n er.1 er.2)
           (.leaf [] b0) = .leaf ps b ∧
         ∀ (p : Vec2) (pred : ℕ → Vec2 → Bool),
           (BvhNode.leaf ps b : BvhNode ℕ).enclosing p pred =
             (ps.filter fun er => pred er.1 p).map Prod.fst) := by
  refine ⟨fun n p pred e he => enclosing_sound n p pred e he, ?_⟩
  intro fuel ps b0 hlen
  obtain ⟨b, hb⟩ := foldl_insert_leaf_ex fuel ps [] b0 (by simpa using hlen)
  exact ⟨b, by simpa using hb, fun p pred => rfl⟩

/-- Witness for C5 (amended) with a single inserted pair: the root stays a
leaf holding exactly that pair. -/
theorem C5_enclosing_sound_and_leaf_exact_witness :
    ([((5 : ℕ), (⟨1, 1⟩ : Vec2))].length ≤ 64) ∧
    (∃ b, [((5 : ℕ), (⟨1, 1⟩ : Vec2))].foldl
        (fun n er => BvhNode.insertFuel (0 + 1) n er.1 er.2)
        (.leaf [] ⟨⟨0, 0⟩, ⟨2, 2⟩⟩) = .leaf [((5 : ℕ), (⟨1, 1⟩ : Vec2))] b ∧
      ∀ (p : Vec2) (pred : ℕ → Vec2 → Bool),
        (BvhNode.leaf [((5 : ℕ), (⟨1, 1⟩ : Vec2))] b : BvhNode ℕ).enclosing p pred =
          ([((5 : ℕ), (⟨1, 1⟩ : Vec2))].filter fun er => pred er.1 p).map Prod.fst) :=
  ⟨by decide,
   C5_enclosing_sound_and_leaf_exact.2 0 [((5 : ℕ), (⟨1, 1⟩ : Vec2))]
     ⟨⟨0, 0⟩, ⟨2, 2⟩⟩ (by decide)⟩

/-- C9: when the root of the spatial index is a branch and no child box
contains the insertion reference point, `insert` leaves the tree entirely
unchanged — the element is silently dropped — and (if the element does not
already occur) no `enclosing` query ever yields it. -/
theorem C9_branch_insert_outside_children_unchanged (fuel : ℕ) (bbox : Bbox)
    (c0 c1 c2 c3 : BvhNode ℕ) (e : ℕ) (rp : Vec2)
    (h0 : c0.contains rp = false) (h1 : c1.contains rp = false)
    (h2 : c2.contains rp = false) (h3 : c3.contains rp = false) :
    BvhNode.insertFuel fuel (.branch bbox c0 c1 c2 c3) e rp =
      .branch bbox c0 c1 c2 c3 ∧
    ∀ (q : Vec2) (pred : ℕ → Vec2 → Bool),
      (∀ rp2, (e, rp2) ∉ (BvhNode.branch bbox c0 c1 c2 c3 : BvhNode ℕ).elemsOf) →
      e ∉ (BvhNode.insertFuel fuel (.branch bbox c0 c1 c2 c3) e rp).enclosing q pred := by
  have hunch : BvhNode.insertFuel fuel (.branch bbox c0 c1 c2 c3) e rp =
      .branch bbox c0 c1 c2 c3 := by
    cases fuel with
    | zero => rfl
    | succ fuel =>
        simp [BvhNode.insertFuel, BvhNode.insertBody, BvhNode.insertFirst, h0, h1, h2, h3]
  refine ⟨hunch, ?_⟩
  intro q pred hnot hmem
  rw [hunch] at hmem
  obtain ⟨⟨rp2, hin⟩, -⟩ := enclosing_sound _ q pred e hmem
  exact hnot rp2 hin

/-- Witness for C9: a concrete branch of 4 empty leaves over `[(0,0),(1,1)]`
and a reference point `(5,5)` outside all of them; the insert is a no-op and
a later query never returns the dropped element. -/
theorem C9_branch_insert_outside_children_unchanged_witness :
    ((BvhNode.leaf [] ⟨⟨0, 0⟩, ⟨1, 1⟩⟩ : BvhNode ℕ).contains ⟨5, 5⟩ = false) ∧
    BvhNode.insertFuel 1
      (.branch ⟨⟨0, 0⟩, ⟨1, 1⟩⟩ (.leaf [] ⟨⟨0, 0⟩, ⟨1, 1⟩⟩) (.leaf [] ⟨⟨0, 0⟩, ⟨1, 1⟩⟩)
        (.leaf [] ⟨⟨0, 0⟩, ⟨1, 1⟩⟩) (.leaf [] ⟨⟨0, 0⟩, ⟨1, 1⟩⟩)) 3 ⟨5, 5⟩ =
      .branch ⟨⟨0, 0⟩, ⟨1, 1⟩⟩ (.leaf [] ⟨⟨0, 0⟩, ⟨1, 1⟩⟩) (.leaf [] ⟨⟨0, 0⟩, ⟨1, 1⟩⟩)
        (.leaf [] ⟨⟨0, 0⟩, ⟨1, 1⟩⟩) (.leaf [] ⟨⟨0, 0⟩, ⟨1, 1⟩⟩) ∧
    (3 : ℕ) ∉ (BvhNode.insertFuel 1
      (.branch ⟨⟨0, 0⟩, ⟨1, 1⟩⟩ (.leaf [] ⟨⟨0, 0⟩, ⟨1, 1⟩⟩) (.leaf [] ⟨⟨0, 0⟩, ⟨1, 1⟩⟩)
        (.leaf [] ⟨⟨0, 0⟩, ⟨1, 1⟩⟩) (.leaf [] ⟨⟨0, 0⟩, ⟨1, 1⟩⟩)) 3 ⟨5, 5⟩).enclosing
      ⟨0, 0⟩ (fun _ _ => true) := by
  have h := C9_branch_insert_outside_children_unchanged 1 ⟨⟨0, 0⟩, ⟨1, 1⟩⟩
    (.leaf [] ⟨⟨0, 0⟩, ⟨1, 1⟩⟩) (.leaf [] ⟨⟨0, 0⟩, ⟨1, 1⟩⟩)
    (.leaf [] ⟨⟨0, 0⟩, ⟨1, 1⟩⟩) (.leaf [] ⟨⟨0, 0⟩, ⟨1, 1⟩⟩) 3 ⟨5, 5⟩
    (by decide) (by decide) (by decide) (by decide)
  exact ⟨by decide, h.1, h.2 ⟨0, 0⟩ (fun _ _ => true) (by simp [BvhNode.elemsOf])⟩

/-- Append-only arena, `Arena<T>` of `src/delaunay-mesh/src/arena.rs`:
a growable vector of values. -/
structure Arena (T : Type) where
  data : List T
deriving DecidableEq, Repr

/-- `ArenaId<Tag>`: a plain index together with a phantom element-type tag;
it carries no link to the arena *instance* that issued it. -/
structure ArenaId (T : Type) where
  ix : ℕ
deriving DecidableEq, Repr

/-- `Arena::push`: append and return the identity of the new slot. -/
def Arena.push {T : Type} (a : Arena T) (v : T) : Arena T × ArenaId T :=
  ({ data := a.data ++ [v] }, ⟨a.data.length⟩)

/-- `Arena::get`: `self.data.get(id.ix)`. -/
def Arena.get {T : Type} (a : Arena T) (id : ArenaId T) : Option T :=
  a.data.get? id.ix

/-- `Index for Arena`: `self.get(ix).unwrap()`; the `unwrap` panic is
modelled as `Except.error ()`. -/
def Arena.index {T : Type} (a : Arena T) (id : ArenaId T) : Except Unit T :=
  match a.get id with
  | some v => Except.ok v
  | none => Except.error ()

/-- C7 counterexample: two arenas of the same element type, each holding one
pushed value. The identity issued by the first arena, looked up in the
second arena, does not fail: it silently yields the second arena's slot
(value `20`), while the issuing arena's slot holds `10`. -/
theorem C7_cross_arena_lookup_counterexample :
    (Arena.push (⟨[]⟩ : Arena ℕ) 20).1.index (Arena.push (⟨[]⟩ : Arena ℕ) 10).2 =
      Except.ok 20 ∧
    (Arena.push (⟨[]⟩ : Arena ℕ) 10).1.index (Arena.push (⟨[]⟩ : Arena ℕ) 10).2 =
      Except.ok 10 :=
  ⟨rfl, rfl⟩

/-- C7 (amended): looking up a dangling identity (index at or beyond the
arena's length) fails fast: `get` returns `None` and `Index` panics.
Cross-arena identities whose index is in range are not detected (see the
counterexample). -/
theorem C7_dangling_lookup_fails_fast {T : Type} (a : Arena T) (id : ArenaId T)
    (h : a.data.length ≤ id.ix) :
    a.get id = none ∧ a.index id = Except.error () := by
  have hg : a.get id = none := List.get?_eq_none.mpr h
  exact ⟨hg, by simp [Arena.index, hg]⟩

/-- Witness for C7 (amended): index 5 is dangling for a 2-element arena. -/
theorem C7_dangling_lookup_fails_fast_witness :
    ((⟨[1, 2]⟩ : Arena ℕ).data.length ≤ (⟨5⟩ : ArenaId ℕ).ix) ∧
    (⟨[1, 2]⟩ : Arena ℕ).get ⟨5⟩ = none ∧
    (⟨[1, 2]⟩ : Arena ℕ).index ⟨5⟩ = Except.error () :=
  ⟨by decide, C7_dangling_lookup_fails_fast ⟨[1, 2]⟩ ⟨5⟩ (by decide)⟩

/-- Triangle identity: the arena index of a triangle slot. -/
abbrev TriId := ℕ

/-- A scape candidate, `(tri, p, err)` of `src/scape/src/scape.rs`. -/
abbrev Cand := TriId × Vec2 × ℚ

/-- Stable insertion keeping the list sorted by error, descending: the new
candidate goes before the first element with strictly smaller error. -/
def insertDescByErr (c : Cand) : List Cand → List Cand
  | [] => [c]
  | d :: ds => if d.2.2 < c.2.2 then c :: d :: ds else d :: insertDescByErr c ds

/-- `candidates.sort_by(|(_, _, e1), (_, _, e2)| e2.partial_cmp(e1).unwrap())`:
a stable sort by error, descending (Rust's `sort_by` is stable; a stable
insertion sort under the same comparator produces the same list). -/
def sortDescByErr : List Cand → List Cand
  | [] => []
  | c :: cs => insertDescByErr c (sortDescByErr cs)

/-- The extraction step of the scape loop: sort descending by error, then
`candidates.pop()`, which removes the LAST element of the vector. -/
def scapeExtract (cs : List Cand) : Option (Cand × List Cand) :=
  match (sortDescByErr cs).getLast? with
  | none => none
  | some c => some (c, (sortDescByErr cs).dropLast)

/-- `candidates.retain(|(t, _, _)| roi.old_triangles.contains(t))`: keep
exactly the candidates whose originating triangle is in `old_triangles`. -/
def retainCandidates (old : List TriId) (cs : List Cand) : List Cand :=
  cs.filter (fun c => decide (c.1 ∈ old))

/-- C2 evaluation at the failing input: with candidates of errors `1` and
`2`, the descending sort followed by `pop()` extracts the error-`1`
candidate — the MINIMUM-error candidate, not the maximum (`1 < 2`). -/
theorem C2_extract_takes_min_error_eval :
    scapeExtract [(0, ⟨0, 0⟩, 1), (1, ⟨1, 1⟩, 2)] =
      some ((0, ⟨0, 0⟩, 1), [(1, ⟨1, 1⟩, 2)]) ∧ (1 : ℚ) < 2 := by
  refine ⟨?_, by norm_num⟩
  rfl

/-- C3 evaluation at the failing input: after an insertion that removed
triangle `0` and kept triangle `1` alive, the `retain` keeps exactly the
candidate of the REMOVED triangle `0` and discards the candidate of the
still-present triangle `1` — the opposite of the claim. -/
theorem C3_retain_keeps_dead_drops_live_eval :
    retainCandidates [0] [(0, ⟨0, 0⟩, 1), (1, ⟨1, 1⟩, 2)] = [(0, ⟨0, 0⟩, 1)] := rfl

/-- The toggle on the `boundary` working set: `HashSet::insert` followed by
`remove` when already present, i.e. membership toggling. The `HashSet` is
modelled as a duplicate-free list. -/
def toggleEdge (s : List (ℕ × ℕ)) (e : ℕ × ℕ) : List (ℕ × ℕ) :=
  if e ∈ s then s.erase e else s ++ [e]

/-- The three directed edges of a triangle's vertex cycle, in source order. -/
def triangleDirectedEdges (t : ℕ × ℕ × ℕ) : List (ℕ × ℕ) :=
  [(t.1, t.2.1), (t.2.1, t.2.2), (t.2.2, t.1)]

/-- The inner loop of `DelaunayMesh::insert`'s boundary computation: for
each directed edge, toggle the edge and then its reverse. -/
def addTriangleEdges (s : List (ℕ × ℕ)) (t : ℕ × ℕ × ℕ) : List (ℕ × ℕ) :=
  (triangleDirectedEdges t).foldl (fun s e => toggleEdge (toggleEdge s e) (e.2, e.1)) s

/-- The boundary working set produced from the bad-triangle list. -/
def cavityBoundary (tris : List (ℕ × ℕ × ℕ)) : List (ℕ × ℕ) :=
  tris.foldl addTriangleEdges []

/-- C4 evaluation at the failing input: a cavity of one bad triangle
`(0, 1, 2)` leaves SIX directed entries in the working set — both
directions of each of the 3 unshared edges — so the subsequent loop creates
6 new triangles (two per boundary edge), not 3; with two bad triangles
sharing edge `{0, 1}`, the shared edge does cancel, but every surviving
undirected edge is again represented twice. -/
theorem C4_boundary_keeps_both_directions_eval :
    cavityBoundary [(0, 1, 2)] = [(0, 1), (1, 0), (1, 2), (2, 1), (2, 0), (0, 2)] ∧
    cavityBoundary [(0, 1, 2), (1, 0, 3)] =
      [(1, 2), (2, 1), (2, 0), (0, 2), (0, 3), (3, 0), (3, 1), (1, 3)] := by
  exact ⟨rfl, rfl⟩

/-- The region of interest returned by `DelaunayMesh::insert` as consumed by
`scape` (`roi.old_triangles` / `roi.new_triangles`). Modelled from the spec:
`mesh.rs`'s `Roi` only stores the newly created triangles, while `scape.rs`
also reads the removed ("old/bad-triangle identities that were removed by
that insertion", per the spec) — the struct here carries both. -/
structure Roi where
  old_triangles : List TriId
  new_triangles : List TriId

/-- The scape refinement loop (`for i in 0..max_vertices` of
`src/scape/src/scape.rs`, lines 40-62), parameterized by the mesh insertion
(`ins`, standing for `triangulation.insert`) and by the best-candidate
search (`best`, standing for `find_best_candidate` over the heightfield plus
`triangulation.vertices`, which is how the heightfield enters the loop).
Returns the final state and the number of extraction-and-insertion
iterations performed. -/
def scapeLoop {M : Type} (ins : M → Vec2 → M × Roi)
    (best : M → TriId → Option (Vec2 × ℚ)) :
    ℕ → M × List Cand → (M × List Cand) × ℕ
  | 0, st => (st, 0)
  | n + 1, st =>
      match scapeExtract st.2 with
      | none => (st, 0)
      | some ((_, p, _), rest) =>
          let mr := ins st.1 p
          let kept := retainCandidates mr.2.old_triangles rest
          let added := mr.2.new_triangles.filterMap
            (fun t => (best mr.1 t).map (fun pe => (t, pe.1, pe.2)))
          let r := scapeLoop ins best n (mr.1, kept ++ added)
          (r.1, r.2 + 1)

/-- C8: for every mesh-insertion behavior, best-candidate behavior (hence
for every heightfield) and vertex budget `n`, the scape loop performs at
most `n` extraction-and-insertion iterations, and as soon as the candidate
collection is empty it stops immediately (no further iterations, state
unchanged). -/
theorem C8_scape_loop_terminates {M : Type} (ins : M → Vec2 → M × Roi)
    (best : M → TriId → Option (Vec2 × ℚ)) (n : ℕ) (st : M × List Cand) :
    (scapeLoop ins best n st).2 ≤ n ∧
    (st.2 = [] → scapeLoop ins best n st = (st, 0)) := by
  induction n generalizing st with
  | zero => exact ⟨le_refl 0, fun _ => rfl⟩
  | succ n ih =>
      constructor
      · show (scapeLoop ins best (n + 1) st).2 ≤ n + 1
        rw [scapeLoop]
        cases hx : scapeExtract st.2 with
        | none => simp
        | some cr =>
            obtain ⟨⟨t, p, err⟩, rest⟩ := cr
            simpa using (ih _).1
      · intro hempty
        rw [scapeLoop]
        have hx : scapeExtract st.2 = none := by rw [hempty]; rfl
        rw [hx]

/-- Witness for C8 with a trivial mesh and an empty candidate collection:
the loop stops at once with 0 iterations despite a budget of 3. -/
theorem C8_scape_loop_terminates_witness :
    (scapeLoop (fun (m : Unit) _ => (m, ⟨[], []⟩)) (fun _ _ => none) 3 ((), [])).2 ≤ 3 ∧
    scapeLoop (fun (m : Unit) _ => (m, ⟨[], []⟩)) (fun _ _ => none) 3 ((), []) =
      (((), []), 0) := by
  have h := C8_scape_loop_terminates (fun (m : Unit) _ => (m, ⟨[], []⟩))
    (fun _ _ => none) 3 ((), [])
  exact ⟨h.1, h.2 rfl⟩

/-- Vertex identity: the arena index of a vertex slot. -/
abbrev VertexId := ℕ

/-- `Vertex` of `src/delaunay-mesh/src/mesh.rs`. -/
structure Vertex where
  position : Vec2
deriving DecidableEq, Repr

/-- `Triangle` of `mesh.rs`: 3 vertex identities plus the precomputed
circumcircle. -/
structure Triangle where
  v0 : VertexId
  v1 : VertexId
  v2 : VertexId
  circumcircle : Circle
deriving DecidableEq, Repr

/-- `DelaunayMesh` of `mesh.rs`. The triangle arena is a list of slots;
a removed triangle leaves a `none` tombstone (modelled from the spec:
`mesh.rs` calls `self.triangles.remove(tri)` but `Arena` in `arena.rs` has
no `remove`; the spec allows "tombstone marking with no reuse" for the
mesh's logical triangle removal, which is what is used here). -/
structure DelaunayMesh where
  triangles : List (Option Triangle)
  vertices : List Vertex
  triangles_index : BvhNode TriId

/-- The padding of the input box in `DelaunayMesh::new`:
`bbox.expand(bbox.min() - 20.0); bbox.expand(bbox.max() + 20.0)`. -/
def padBbox (b : Bbox) : Bbox :=
  (b.expand (b.min.subScalar 20)).expand (b.max.addScalar 20)

/-- `self.vertices[v].position`; Rust panics on an invalid identity, and C10
shows a live triangle's identities are always valid, so the default value of
this total model is never read on live data. -/
def DelaunayMesh.vertexPos (m : DelaunayMesh) (i : VertexId) : Vec2 :=
  ((m.vertices.get? i).map Vertex.position).getD ⟨0, 0⟩

/-- `DelaunayMesh::insert_triangle`: read the 3 positions, compute the
circumcircle, push the triangle and file it in the spatial index keyed by
the circumcenter. -/
def DelaunayMesh.insertTriangle (fuel : ℕ) (m : DelaunayMesh)
    (va vb vc : VertexId) : DelaunayMesh × TriId :=
  let a := m.vertexPos va
  let b := m.vertexPos vb
  let c := m.vertexPos vc
  let cc := Circle.circumcircle a b c
  let tid := m.triangles.length
  ({ triangles := m.triangles ++ [some ⟨va, vb, vc, cc⟩],
     vertices := m.vertices,
     triangles_index := BvhNode.insertFuel fuel m.triangles_index tid cc.center },
   tid)

/-- The `add_super_triangle` closure of `DelaunayMesh::new`: push 3 fresh
vertices and build a triangle on them. -/
def DelaunayMesh.addSuperTriangle (fuel : ℕ) (m : DelaunayMesh)
    (a b c : Vec2) : DelaunayMesh :=
  let va := m.vertices.length
  let m1 : DelaunayMesh := { m with vertices := m.vertices ++ [⟨a⟩, ⟨b⟩, ⟨c⟩] }
  (m1.insertTriangle fuel va (va + 1) (va + 2)).1

/-- `DelaunayMesh::new`: pad the box by 20 on every side, seed the arenas
and the index, then add the two "super triangles" with the literal corner
expressions of the source — note the first one's third vertex is
`Vec2::new(min.y, max.x)`. -/
def DelaunayMesh.new (fuel : ℕ) (bbox0 : Bbox) : DelaunayMesh :=
  let bbox := padBbox bbox0
  let m0 : DelaunayMesh := ⟨[], [], .leaf [] bbox⟩
  let mn := bbox.min
  let mx := bbox.max
  let m1 := m0.addSuperTriangle fuel mn mx ⟨mn.y, mx.x⟩
  m1.addSuperTriangle fuel mx mn ⟨mn.x, mx.y⟩

/-- Tombstone removal of a triangle slot (see `DelaunayMesh`). -/
def removeTriangle (l : List (Option Triangle)) (i : TriId) : List (Option Triangle) :=
  l.set i none

/-- The circumcircle-containment predicate `insert` passes to the spatial
query: `self.triangles[tid].circumcircle.contains(p)`. A dead or dangling
identity is treated as non-matching (modelled from the spec: removed
identities "become invalid for further lookup", and the index is never
purged of them, so the total model must decide them; a stale match would be
a fatal lookup in the source). -/
def DelaunayMesh.badPred (m : DelaunayMesh) (tid : TriId) (q : Vec2) : Bool :=
  match m.triangles.get? tid with
  | some (some t) => t.circumcircle.contains q
  | _ => false

/-- The boundary-accumulation loop of `DelaunayMesh::insert`: toggle the
directed edges (and reverses) of every bad triangle into the working set. -/
def DelaunayMesh.cavityEdges (m : DelaunayMesh) (bad : List TriId) : List (ℕ × ℕ) :=
  bad.foldl
    (fun s tid =>
      match m.triangles.get? tid with
      | some (some t) => addTriangleEdges s (t.v0, t.v1, t.v2)
      | _ => s) []

/-- Tombstone every bad triangle (`for tri in bad_tris { self.triangles.remove(tri) }`). -/
def removeTriangles (l : List (Option Triangle)) (bad : List TriId) :
    List (Option Triangle) :=
  bad.foldl removeTriangle l

/-- The re-triangulation loop of `DelaunayMesh::insert`: one new triangle
`(v0, v1, new_vertex)` per working-set entry, collecting the new ids. -/
def roiFold (fuel : ℕ) (vp : VertexId) (boundary : List (ℕ × ℕ))
    (m2 : DelaunayMesh) : DelaunayMesh × List TriId :=
  boundary.foldl
    (fun (acc : DelaunayMesh × List TriId) e =>
      let ti := acc.1.insertTriangle fuel e.1 e.2 vp
      (ti.1, acc.2 ++ [ti.2]))
    (m2, [])

/-- `DelaunayMesh::insert`: collect the bad triangles via the spatial index,
toggle their directed edges (and reverses) into the boundary working set,
tombstone the bad triangles, push the new vertex, and create one triangle
per surviving working-set entry, accumulating the new identities. -/
def DelaunayMesh.insert (fuel : ℕ) (m : DelaunayMesh) (p : Vec2) :
    DelaunayMesh × Roi :=
  let bad := m.triangles_index.enclosing p m.badPred
  let boundary := m.cavityEdges bad
  let m1 : DelaunayMesh := { m with triangles := removeTriangles m.triangles bad }
  let m2 : DelaunayMesh := { m1 with vertices := m1.vertices ++ [⟨p⟩] }
  let vp := m1.vertices.length
  let r := roiFold fuel vp boundary m2
  (r.1, { old_triangles := bad, new_triangles := r.2 })

/-- Point-in-triangle test by cross-product signs; a spec-side notion used
only to state the "covers the padded box" property of the seeded
triangles (the source has no such function). -/
def pointInTriangle (a b c p : Vec2) : Bool :=
  let d1 := (b.x - a.x) * (p.y - a.y) - (b.y - a.y) * (p.x - a.x)
  let d2 := (c.x - b.x) * (p.y - b.y) - (c.y - b.y) * (p.x - b.x)
  let d3 := (a.x - c.x) * (p.y - c.y) - (a.y - c.y) * (p.x - c.x)
  (decide (0 ≤ d1) && decide (0 ≤ d2) && decide (0 ≤ d3)) ||
  (decide (d1 ≤ 0) && decide (d2 ≤ 0) && decide (d3 ≤ 0))

unseal Rat.add Rat.sub Rat.mul Rat.inv in
/-- C6 evaluation at the failing input `[(0,0),(10,10)]`: the box is indeed
padded by 20 to `[(-20,-20),(30,30)]`, but the first super triangle's third
vertex is `Vec2::new(min.y, max.x) = (-20, 30)` — for this square box the
top-LEFT corner, the same third vertex as the second triangle — so both
seeded triangles are the upper-left half of the padded box and the point
`(25, -15)` of the padded box is covered by neither. -/
theorem C6_super_triangles_gap_eval :
    (DelaunayMesh.new 1 ⟨⟨0, 0⟩, ⟨10, 10⟩⟩).vertices =
      [⟨⟨-20, -20⟩⟩, ⟨⟨30, 30⟩⟩, ⟨⟨-20, 30⟩⟩, ⟨⟨30, 30⟩⟩, ⟨⟨-20, -20⟩⟩, ⟨⟨-20, 30⟩⟩] ∧
    padBbox ⟨⟨0, 0⟩, ⟨10, 10⟩⟩ = ⟨⟨-20, -20⟩, ⟨30, 30⟩⟩ ∧
    (padBbox ⟨⟨0, 0⟩, ⟨10, 10⟩⟩).contains ⟨25, -15⟩ = true ∧
    pointInTriangle ⟨-20, -20⟩ ⟨30, 30⟩ ⟨-20, 30⟩ ⟨25, -15⟩ = false ∧
    pointInTriangle ⟨30, 30⟩ ⟨-20, -20⟩ ⟨-20, 30⟩ ⟨25, -15⟩ = false := by
  decide

/-- Validity of one triangle slot against a vertex-arena length: a live
triangle's 3 vertex identities are in range; a tombstone is vacuously OK. -/
def triOK (nv : ℕ) : Option Triangle → Bool
  | none => true
  | some t => decide (t.v0 < nv) && decide (t.v1 < nv) && decide (t.v2 < nv)

/-- The C10 invariant: every stored (live) triangle holds vertex identities
that are valid indices into the mesh's own vertex arena. -/
def DelaunayMesh.WF (m : DelaunayMesh) : Prop :=
  ∀ t ∈ m.triangles, triOK m.vertices.length t = true

lemma triOK_mono {nv nv2 : ℕ} (h : nv ≤ nv2) {t : Option Triangle}
    (ht : triOK nv t = true) : triOK nv2 t = true := by
  cases t with
  | none => rfl
  | some t =>
      unfold triOK at ht ⊢
      simp only [Bool.and_eq_true, decide_eq_true_eq] at ht ⊢
      exact ⟨⟨lt_of_lt_of_le ht.1.1 h, lt_of_lt_of_le ht.1.2 h⟩, lt_of_lt_of_le ht.2 h⟩

lemma insertTriangle_vertices (fuel : ℕ) (m : DelaunayMesh) (va vb vc : VertexId) :
    ((m.insertTriangle fuel va vb vc).1).vertices = m.vertices := rfl

lemma WF_insertTriangle {m : DelaunayMesh} {va vb vc : VertexId} (fuel : ℕ)
    (hm : m.WF) (ha : va < m.vertices.length) (hb : vb < m.vertices.length)
    (hc : vc < m.vertices.length) : ((m.insertTriangle fuel va vb vc).1).WF := by
  intro t ht
  rw [insertTriangle_vertices]
  simp only [DelaunayMesh.insertTriangle, List.mem_append, List.mem_singleton] at ht
  rcases ht with ht | rfl
  · exact hm t ht
  · unfold triOK
    simp only [Bool.and_eq_true, decide_eq_true_eq]
    exact ⟨⟨ha, hb⟩, hc⟩

lemma WF_addSuperTriangle {m : DelaunayMesh} (fuel : ℕ) (hm : m.WF)
    (a b c : Vec2) : (m.addSuperTriangle fuel a b c).WF := by
  have hm1 : (⟨m.triangles, m.vertices ++ [⟨a⟩, ⟨b⟩, ⟨c⟩], m.triangles_index⟩ :
      DelaunayMesh).WF := by
    intro t ht
    exact triOK_mono (by simp) (hm t ht)
  exact WF_insertTriangle fuel hm1 (by simp) (by simp) (by simp)

lemma WF_new (fuel : ℕ) (b0 : Bbox) : (DelaunayMesh.new fuel b0).WF := by
  have h0 : (⟨[], [], .leaf [] (padBbox b0)⟩ : DelaunayMesh).WF := by
    intro t ht
    exact absurd ht (List.not_mem_nil t)
  exact WF_addSuperTriangle fuel (WF_addSuperTriangle fuel h0 _ _ _) _ _ _

/-- Both components of an edge are valid vertex indices. -/
def edgeOK (nv : ℕ) (e : ℕ × ℕ) : Prop := e.1 < nv ∧ e.2 < nv

lemma toggleEdge_subset {s : List (ℕ × ℕ)} {e x : ℕ × ℕ}
    (hx : x ∈ toggleEdge s e) : x ∈ s ∨ x = e := by
  unfold toggleEdge at hx
  split at hx
  · exact Or.inl (List.mem_of_mem_erase hx)
  · rcases List.mem_append.mp hx with h | h
    · exact Or.inl h
    · exact Or.inr (List.mem_singleton.mp h)

lemma foldl_toggle_pres (P : (ℕ × ℕ) → Prop) (edges : List (ℕ × ℕ)) :
    ∀ s, (∀ x ∈ s, P x) → (∀ e ∈ edges, P e ∧ P (e.2, e.1)) →
      ∀ x ∈ edges.foldl (fun s e => toggleEdge (toggleEdge s e) (e.2, e.1)) s, P x := by
  induction edges with
  | nil => intro s hs _ x hx; exact hs x hx
  | cons e es ih =>
      intro s hs he x hx
      rw [List.foldl_cons] at hx
      have hPe := he e (List.mem_cons_self e es)
      refine ih _ (fun y hy => ?_) (fun d hd => he d (List.mem_cons_of_mem e hd)) x hx
      rcases toggleEdge_subset hy with hy1 | rfl
      · rcases toggleEdge_subset hy1 with hy2 | rfl
        · exact hs y hy2
        · exact hPe.1
      · exact hPe.2

lemma addTriangleEdges_pres {nv : ℕ} {s : List (ℕ × ℕ)} {t : ℕ × ℕ × ℕ}
    (hs : ∀ x ∈ s, edgeOK nv x) (h0 : t.1 < nv) (h1 : t.2.1 < nv) (h2 : t.2.2 < nv) :
    ∀ x ∈ addTriangleEdges s t, edgeOK nv x := by
  apply foldl_toggle_pres (edgeOK nv) _ s hs
  intro e he
  simp only [triangleDirectedEdges, List.mem_cons, List.not_mem_nil, or_false] at he
  rcases he with rfl | rfl | rfl
  · exact ⟨⟨h0, h1⟩, h1, h0⟩
  · exact ⟨⟨h1, h2⟩, h2, h1⟩
  · exact ⟨⟨h2, h0⟩, h0, h2⟩

lemma cavityEdges_ok {m : DelaunayMesh} (hm : m.WF) (bad : List TriId) :
    ∀ x ∈ m.cavityEdges bad, edgeOK m.vertices.length x := by
  unfold DelaunayMesh.cavityEdges
  generalize hs0 : ([] : List (ℕ × ℕ)) = s0
  have hs : ∀ x ∈ s0, edgeOK m.vertices.length x := by
    intro x hx; rw [← hs0] at hx; exact absurd hx (List.not_mem_nil x)
  clear hs0
  induction bad generalizing s0 with
  | nil => intro x hx; exact hs x hx
  | cons tid rest ih =>
      intro x hx
      rw [List.foldl_cons] at hx
      cases hg : m.triangles.get? tid with
      | none =>
          rw [hg] at hx
          exact ih _ hs x hx
      | some slot =>
          cases slot with
          | none =>
              rw [hg] at hx
              exact ih _ hs x hx
          | some t =>
              rw [hg] at hx
              have hmem : some t ∈ m.triangles := List.get?_mem hg
              have hok := hm _ hmem
              unfold triOK at hok
              simp only [Bool.and_eq_true, decide_eq_true_eq] at hok
              exact ih _ (addTriangleEdges_pres hs hok.1.1 hok.1.2 hok.2) x hx

lemma removeTriangles_triOK {nv : ℕ} (bad : List TriId) :
    ∀ (l : List (Option Triangle)), (∀ t ∈ l, triOK nv t = true) →
      ∀ t ∈ removeTriangles l bad, triOK nv t = true := by
  unfold removeTriangles
  induction bad with
  | nil => intro l hl t ht; exact hl t ht
  | cons tid rest ih =>
      intro l hl t ht
      rw [List.foldl_cons] at ht
      refine ih _ (fun u hu => ?_) t ht
      rcases List.mem_or_eq_of_mem_set hu with hu1 | rfl
      · exact hl u hu1
      · rfl

lemma roiFold_WF (fuel : ℕ) (vp : VertexId) (boundary : List (ℕ × ℕ)) :
    ∀ (acc : DelaunayMesh × List TriId), acc.1.WF →
      (∀ x ∈ boundary, edgeOK acc.1.vertices.length x) →
      vp < acc.1.vertices.length →
      (boundary.foldl
        (fun (acc : DelaunayMesh × List TriId) e =>
          let ti := acc.1.insertTriangle fuel e.1 e.2 vp
          (ti.1, acc.2 ++ [ti.2])) acc).1.WF := by
  induction boundary with
  | nil => intro acc hacc _ _; exact hacc
  | cons e es ih =>
      intro acc hacc hedges hvp
      rw [List.foldl_cons]
      have he := hedges e (List.mem_cons_self e es)
      refine ih _ (WF_insertTriangle fuel hacc he.1 he.2 hvp) ?_ ?_
      · intro x hx
        rw [insertTriangle_vertices]
        exact hedges x (List.mem_cons_of_mem e hx)
      · rw [insertTriangle_vertices]
        exact hvp

lemma WF_insert {m : DelaunayMesh} (fuel : ℕ) (p : Vec2) (hm : m.WF) :
    ((m.insert fuel p).1).WF := by
  unfold DelaunayMesh.insert
  dsimp only
  have hlen : (m.vertices ++ [(⟨p⟩ : Vertex)]).length = m.vertices.length + 1 := by
    simp
  apply roiFold_WF fuel m.vertices.length
  · intro t ht
    have h2 := removeTriangles_triOK _ m.triangles hm t ht
    exact triOK_mono (by simp) h2
  · intro x hx
    have h2 := cavityEdges_ok hm _ x hx
    exact ⟨by simpa using Nat.lt_succ_of_lt h2.1, by simpa using Nat.lt_succ_of_lt h2.2⟩
  · simp

/-- C10: every operation of `DelaunayMesh` — construction, `insert`,
`insert_triangle` (the latter under the stated precondition that its 3
identities are valid at creation time, which is how the mesh itself always
calls it) — preserves the invariant that each live stored triangle holds 3
vertex identities valid for the mesh's own vertex arena; consequently
dereferencing a live triangle's vertices never fails. -/
theorem C10_mesh_vertex_ids_always_valid (fuel : ℕ) :
    (∀ b0 : Bbox, (DelaunayMesh.new fuel b0).WF) ∧
    (∀ (m : DelaunayMesh) (va vb vc : VertexId), m.WF →
      va < m.vertices.length → vb < m.vertices.length → vc < m.vertices.length →
      ((m.insertTriangle fuel va vb vc).1).WF) ∧
    (∀ (m : DelaunayMesh) (p : Vec2), m.WF → ((m.insert fuel p).1).WF) ∧
    (∀ (m : DelaunayMesh) (t : Triangle), m.WF → some t ∈ m.triangles →
      (m.vertices.get? t.v0).isSome = true ∧ (m.vertices.get? t.v1).isSome = true ∧
      (m.vertices.get? t.v2).isSome = true) := by
  refine ⟨WF_new fuel, fun m va vb vc hm ha hb hc => WF_insertTriangle fuel hm ha hb hc,
    fun m p hm => WF_insert fuel p hm, ?_⟩
  intro m t hm hmem
  have hok := hm _ hmem
  unfold triOK at hok
  simp only [Bool.and_eq_true, decide_eq_true_eq] at hok
  refine ⟨?_, ?_, ?_⟩
  · rw [List.get?_eq_get hok.1.1]; rfl
  · rw [List.get?_eq_get hok.1.2]; rfl
  · rw [List.get?_eq_get hok.2]; rfl

/-- Witness for C10: the freshly constructed mesh over `[(0,0),(1,1)]`
satisfies the invariant, and inserting a point into a concrete (empty) mesh
preserves it. -/
theorem C10_mesh_vertex_ids_always_valid_witness :
    (DelaunayMesh.new 1 ⟨⟨0, 0⟩, ⟨1, 1⟩⟩).WF ∧
    (((⟨[], [], .leaf [] ⟨⟨0, 0⟩, ⟨1, 1⟩⟩⟩ : DelaunayMesh).insert 1 ⟨5, 5⟩).1).WF :=
  ⟨(C10_mesh_vertex_ids_always_valid 1).1 ⟨⟨0, 0⟩, ⟨1, 1⟩⟩,
   (C10_mesh_vertex_ids_always_valid 1).2.2.1 ⟨[], [], .leaf [] ⟨⟨0, 0⟩, ⟨1, 1⟩⟩⟩ ⟨5, 5⟩
     (fun t ht => absurd ht (List.not_mem_nil t))⟩

end TerrainMesh

